/-
Verification of the watchparty virtual-browser pool manager.

Shallow embedding of `src/server/vm/base.ts` (class VMManager and its helper
functions).  The relational state store (Postgres table `vbrowser`) is modelled
as a `List VMRow`; SQL statements become pure functions on that list.  Machine
numbers are modelled with `Int`/`Nat`/`ℚ` (JavaScript `%` on integers is the
truncating remainder, `Int.tmod`; Postgres `%` on integers likewise truncates
toward zero).  `Math.ceil` on a rational is modelled by `ratCeil` below.
Asynchronous calls to the cloud provider, to Redis and to the HTTP probe are
modelled as oracle parameters and as effect fields in result records.
-/
import Mathlib

/-- The provider-side VM descriptor (`interface VM` in base.ts). -/
structure VM where
  id : String
  pass : String
  host : String
  private_ip : String
  state : String
  tags : List String
  creation_date : String
  provider : String
  originalName : Option String
  large : Bool
  region : String
deriving DecidableEq, Repr

/-- One row of the `vbrowser` table (the VM record of the state store). -/
structure VMRow where
  id : Nat
  pool : String
  vmid : String
  state : String
  creationTime : Int
  readyTime : Option Int := none
  assignTime : Option Int := none
  heartbeatTime : Option Int := none
  resetTime : Option Int := none
  retries : Nat := 0
  roomId : Option String := none
  uid : Option String := none
  data : Option VM := none
deriving DecidableEq, Repr

/-- `nonNegativeMod` from base.ts: `((n % m) + m) % m` with JavaScript `%`,
which is the truncating remainder (`Int.tmod`). -/
def nonNegativeMod (n m : Int) : Int :=
  ((n.tmod m) + m).tmod m

/-- `pointInInterval24` from base.ts. -/
def pointInInterval24 (x a b : Int) : Bool :=
  decide (nonNegativeMod (x - a) 24 ≤ nonNegativeMod (b - a) 24)

/-- Executable model of JavaScript `Math.ceil` on an exact rational:
`-⌊-q⌋`, computed through `Rat.floor` (`⌊q⌋ = q.num / q.den`). -/
def ratCeil (q : ℚ) : ℤ :=
  -((-q).num / ((-q).den : ℤ))

/-- `getMinBuffer` from base.ts: `limitSize * 0.05` (exact-rational model of
the floating-point product). -/
def getMinBuffer (limitSize : ℚ) : ℚ :=
  limitSize * (5 / 100)

/-- The mutated `minBuffer` value inside `getAdjustedBuffer`: halved in the
ramp-down window, else multiplied by 1.5 in the ramp-up window, else left.
A window is the parsed `"a,b"` configuration pair; `none` models a
configuration whose parse yields no usable interval (membership false). -/
def adjustedMinBuffer (limitSize : ℚ) (rampDownHours rampUpHours : Option (Int × Int))
    (nowHour : Int) : ℚ :=
  let minBuffer := getMinBuffer limitSize
  let isRampDown := match rampDownHours with
    | some w => pointInInterval24 nowHour w.1 w.2
    | none => false
  let isRampUp := match rampUpHours with
    | some w => pointInInterval24 nowHour w.1 w.2
    | none => false
  if isRampDown then minBuffer / 2
  else if isRampUp then minBuffer * (3 / 2)
  else minBuffer

/-- `getAdjustedBuffer` from base.ts: returns
`[Math.ceil(minBuffer), Math.ceil(minBuffer * 1.5)]`. -/
def getAdjustedBuffer (limitSize : ℚ) (rampDownHours rampUpHours : Option (Int × Int))
    (nowHour : Int) : ℤ × ℤ :=
  let minBuffer := adjustedMinBuffer limitSize rampDownHours rampUpHours nowHour
  (ratCeil minBuffer, ratCeil (minBuffer * (3 / 2)))

/-- Spec-side definition for claim C6, written from the claim's words:
base `minBuffer = limitSize × 0.05`; halve it if the hour lies in the
ramp-down window, else multiply by 1.5 if it lies in the ramp-up window
(ramp-down takes precedence); window membership is
`(x − a) mod 24 ≤ (b − a) mod 24` with the mathematical (non-negative)
modulus; return `(ceil minBuffer, ceil (minBuffer × 1.5))`. -/
def getAdjustedBufferClaim (limitSize : ℚ) (rampDownHours rampUpHours : Option (Int × Int))
    (nowHour : Int) : ℤ × ℤ :=
  let base := limitSize * (5 / 100)
  let inDown := match rampDownHours with
    | some w => decide ((nowHour - w.1) % 24 ≤ (w.2 - w.1) % 24)
    | none => false
  let inUp := match rampUpHours with
    | some w => decide ((nowHour - w.1) % 24 ≤ (w.2 - w.1) % 24)
    | none => false
  let b := if inDown then base / 2 else if inUp then base * (3 / 2) else base
  (ratCeil b, ratCeil (b * (3 / 2)))

/-- The formula claim C9 asserts about the returned watermark pair:
`high = ceil(low × 1.5 / max(1, ceil(low) / low))`, read with `low` being the
returned (integral) low watermark. -/
def c9ClaimFormula (low : ℤ) : ℤ :=
  ratCeil ((low : ℚ) * (3 / 2) / max 1 ((ratCeil (low : ℚ) : ℚ) / (low : ℚ)))

theorem neg_tmod_eq (a b : Int) : (-a).tmod b = -(a.tmod b) := by
  rw [Int.tmod_def, Int.tmod_def, Int.neg_tdiv]
  ring

theorem nonNegativeMod_eq_emod (n : Int) : nonNegativeMod n 24 = n % 24 := by
  unfold nonNegativeMod
  have hb : (0 : Int) ≤ 24 := by decide
  rcases le_or_lt 0 n with hn | hn
  · rw [Int.tmod_eq_emod hn hb]
    have h2 : (0 : Int) ≤ n % 24 + 24 := by
      have := Int.emod_nonneg n (show (24 : Int) ≠ 0 by decide)
      omega
    rw [Int.tmod_eq_emod h2 hb]
    omega
  · have h2 : (0 : Int) ≤ -n := by omega
    have h3 : n.tmod 24 = -((-n) % 24) := by
      have h := neg_tmod_eq (-n) 24
      rw [neg_neg] at h
      rw [h, Int.tmod_eq_emod h2 hb]
    rw [h3]
    have hlt : (-n) % 24 < 24 := Int.emod_lt_of_pos (-n) (by decide)
    have h4 : (0 : Int) ≤ -((-n) % 24) + 24 := by omega
    rw [Int.tmod_eq_emod h4 hb]
    omega

theorem ratCeil_eq_ceil (q : ℚ) : ratCeil q = ⌈q⌉ := by
  have h : ⌊-q⌋ = (-q).num / ((-q).den : ℤ) := Rat.floor_def
  rw [ratCeil, ← h, Int.floor_neg, neg_neg]

theorem pointInInterval24_eq (x a b : Int) :
    pointInInterval24 x a b = decide ((x - a) % 24 ≤ (b - a) % 24) := by
  rw [pointInInterval24, nonNegativeMod_eq_emod, nonNegativeMod_eq_emod]

/-- C6: `getAdjustedBuffer` behaves exactly as the claim describes: base
buffer `limitSize × 0.05`, halved during the ramp-down window, else scaled by
1.5 during the ramp-up window (ramp-down taking precedence when both windows
contain the hour), with 24-hour wraparound membership
`(x − a) mod 24 ≤ (b − a) mod 24`, returning
`(ceil minBuffer, ceil (minBuffer × 1.5))`. -/
theorem getAdjustedBuffer_matches_claim (limitSize : ℚ)
    (rampDownHours rampUpHours : Option (Int × Int)) (nowHour : Int) :
    getAdjustedBuffer limitSize rampDownHours rampUpHours nowHour =
      getAdjustedBufferClaim limitSize rampDownHours rampUpHours nowHour := by
  unfold getAdjustedBuffer adjustedMinBuffer getAdjustedBufferClaim getMinBuffer
  cases rampDownHours <;> cases rampUpHours <;>
    simp only [pointInInterval24_eq]

/-- C9 counterexample: at `limitSize = 10` (no ramp windows, hour 0) the
returned pair is `(1, 1)`, but the claimed formula
`high = ceil(low × 1.5 / max(1, ceil(low)/low))` evaluates to `2` at
`low = 1`, so the claimed equation fails on the code. -/
theorem getAdjustedBuffer_c9_formula_fails :
    getAdjustedBuffer 10 none none 0 = (1, 1) ∧
    (getAdjustedBuffer 10 none none 0).2 ≠
      c9ClaimFormula (getAdjustedBuffer 10 none none 0).1 := by
  have h : getAdjustedBuffer 10 none none 0 = (1, 1) := by
    unfold getAdjustedBuffer adjustedMinBuffer getMinBuffer
    simp only [ratCeil_eq_ceil, Prod.mk.injEq]
    constructor
    · rw [Int.ceil_eq_iff] ; norm_num
    · rw [Int.ceil_eq_iff] ; norm_num
  refine ⟨h, ?_⟩
  rw [h]
  have h2 : c9ClaimFormula 1 = 2 := by
    unfold c9ClaimFormula
    simp only [ratCeil_eq_ceil]
    norm_num
    rw [Int.ceil_eq_iff] ; norm_num
  simp [h2]

/-- C9 amended: the returned watermarks satisfy `low ≤ high` whenever
`limitSize` is non-negative (the claimed closed-form equation relating them
is dropped; only the inequality it was meant to imply holds). -/
theorem getAdjustedBuffer_high_ge_low (limitSize : ℚ)
    (rampDownHours rampUpHours : Option (Int × Int)) (nowHour : Int)
    (h : 0 ≤ limitSize) :
    (getAdjustedBuffer limitSize rampDownHours rampUpHours nowHour).1 ≤
      (getAdjustedBuffer limitSize rampDownHours rampUpHours nowHour).2 := by
  have hm : (0 : ℚ) ≤ limitSize * (5 / 100) := by positivity
  have hb : 0 ≤ adjustedMinBuffer limitSize rampDownHours rampUpHours nowHour := by
    unfold adjustedMinBuffer getMinBuffer
    dsimp only
    split_ifs
    · exact div_nonneg hm (by norm_num)
    · exact mul_nonneg hm (by norm_num)
    · exact hm
  unfold getAdjustedBuffer
  simp only [ratCeil_eq_ceil]
  exact Int.ceil_mono (le_mul_of_one_le_right hb (by norm_num))

theorem getAdjustedBuffer_high_ge_low_witness :
    (0 : ℚ) ≤ 10 ∧
    (getAdjustedBuffer 10 none none 0).1 ≤ (getAdjustedBuffer 10 none none 0).2 :=
  ⟨by simp, getAdjustedBuffer_high_ge_low 10 none none 0 (by simp)⟩

/-- JavaScript `String.replace` with a string pattern: replace the first
occurrence of `pat` (if any) by `rep`, on character lists. -/
def replaceFirstList (pat rep : List Char) : List Char → List Char
  | [] => []
  | c :: rest =>
    if pat.isPrefixOf (c :: rest) then rep ++ (c :: rest).drop pat.length
    else c :: replaceFirstList pat rep rest

/-- JavaScript `s.replace(pat, rep)` (string-pattern form, first occurrence). -/
def replaceFirst (s pat rep : String) : String :=
  ⟨replaceFirstList pat.data rep.data s.data⟩

/-- `checkVMReady` from base.ts.  The HTTP layer is an oracle
`httpGet : String → Option ℚ`: `some body` is a successful response whose
numeric body is `body` (Unix boot seconds); `none` is any failure — network
error, 1-second timeout, or non-2xx status (axios throws on all of these).
`nowMs` is `Date.now()` and `isProduction` is `NODE_ENV === 'production'`. -/
def checkVMReady (httpGet : String → Option ℚ) (isProduction : Bool) (nowMs : ℚ)
    (host : String) : Bool :=
  let url := "https://" ++ replaceFirst host "/" "/health"
  match httpGet url with
  | none => false
  | some bootSeconds =>
    if isProduction then decide (nowMs / 1000 - bootSeconds < 60 * 1000) else true

theorem replaceFirstList_slash_split (rep pre suf : List Char)
    (hpre : '/' ∉ pre) :
    replaceFirstList ['/'] rep (pre ++ '/' :: suf) = pre ++ (rep ++ suf) := by
  induction pre with
  | nil =>
    rw [List.nil_append, replaceFirstList]
    simp [List.isPrefixOf]
  | cons c cs ih =>
    have hc : c ≠ '/' := by
      intro hceq
      exact hpre (by rw [hceq]; exact List.mem_cons_self '/' cs)
    have hcs : '/' ∉ cs := fun hmem => hpre (List.mem_cons_of_mem c hmem)
    rw [List.cons_append, replaceFirstList]
    have hnp : (['/'].isPrefixOf (c :: (cs ++ '/' :: suf))) = false := by
      simp [List.isPrefixOf]
      intro heq
      exact hc heq.symm
    rw [hnp]
    simp only [if_false, Bool.false_eq_true]
    rw [ih hcs, List.cons_append]


theorem checkVMReady_unfold (httpGet : String → Option ℚ) (isProduction : Bool)
    (nowMs : ℚ) (host : String) :
    checkVMReady httpGet isProduction nowMs host =
      match httpGet ("https://" ++ replaceFirst host "/" "/health") with
      | none => false
      | some bootSeconds =>
        if isProduction then decide (nowMs / 1000 - bootSeconds < 60 * 1000)
        else true := rfl

/-- C7: the readiness probe builds its URL by replacing the first `/` of
`host` with `/health` and prefixing `https://`; in production mode it is
ready iff the GET succeeds and `nowSeconds - bootSeconds < 60000`
(`timeSinceBoot < 60 * 1000` in the source); in development mode any
successful response is ready; any failed GET (network, timeout, non-2xx)
is not ready. -/
theorem checkVMReady_spec (httpGet : String → Option ℚ) (nowMs : ℚ)
    (host pre suf : String)
    (hsplit : host = pre ++ "/" ++ suf) (hpre : '/' ∉ pre.data) :
    ("https://" ++ replaceFirst host "/" "/health" =
        "https://" ++ pre ++ "/health" ++ suf) ∧
    (checkVMReady httpGet true nowMs host = true ↔
      ∃ b, httpGet ("https://" ++ pre ++ "/health" ++ suf) = some b ∧
        nowMs / 1000 - b < 60000) ∧
    (checkVMReady httpGet false nowMs host = true ↔
      (httpGet ("https://" ++ pre ++ "/health" ++ suf)).isSome = true) ∧
    (∀ isProduction,
      httpGet ("https://" ++ pre ++ "/health" ++ suf) = none →
      checkVMReady httpGet isProduction nowMs host = false) := by
  subst hsplit
  have hurl : replaceFirst (pre ++ "/" ++ suf) "/" "/health" =
      pre ++ "/health" ++ suf := by
    apply String.ext
    have hd : (pre ++ "/" ++ suf).data = pre.data ++ '/' :: suf.data := by simp
    rw [replaceFirst]
    show replaceFirstList ("/" : String).data ("/health" : String).data
      (pre ++ "/" ++ suf).data = (pre ++ "/health" ++ suf).data
    rw [hd]
    rw [show ("/" : String).data = ['/'] from rfl]
    rw [replaceFirstList_slash_split ("/health" : String).data pre.data suf.data hpre]
    simp
  have hfull : "https://" ++ replaceFirst (pre ++ "/" ++ suf) "/" "/health" =
      "https://" ++ pre ++ "/health" ++ suf := by
    rw [hurl]
    apply String.ext
    simp
  refine ⟨hfull, ?_, ?_, ?_⟩
  · rw [checkVMReady_unfold, hfull]
    cases hres : httpGet ("https://" ++ pre ++ "/health" ++ suf) with
    | none => simp
    | some b =>
      simp only [if_true, decide_eq_true_eq]
      constructor
      · intro hlt
        exact ⟨b, rfl, by linarith⟩
      · rintro ⟨b2, hb2, hlt⟩
        have hbb : b = b2 := Option.some.inj hb2
        subst hbb
        linarith
  · rw [checkVMReady_unfold, hfull]
    cases hres : httpGet ("https://" ++ pre ++ "/health" ++ suf) with
    | none => simp
    | some b => simp
  · intro isProduction hnone
    rw [checkVMReady_unfold, hfull, hnone]

theorem checkVMReady_spec_witness :
    (("gw.io/?ip=9" : String) = "gw.io" ++ "/" ++ "?ip=9") ∧
    ('/' ∉ ("gw.io" : String).data) ∧
    (("https://" ++ replaceFirst "gw.io/?ip=9" "/" "/health" =
        "https://" ++ "gw.io" ++ "/health" ++ "?ip=9") ∧
    (checkVMReady (fun _ => some 0) true 0 "gw.io/?ip=9" = true ↔
      ∃ b, (fun _ : String => some (0 : ℚ))
          ("https://" ++ "gw.io" ++ "/health" ++ "?ip=9") = some b ∧
        (0 : ℚ) / 1000 - b < 60000) ∧
    (checkVMReady (fun _ => some 0) false 0 "gw.io/?ip=9" = true ↔
      ((fun _ : String => some (0 : ℚ))
          ("https://" ++ "gw.io" ++ "/health" ++ "?ip=9")).isSome = true) ∧
    (∀ isProduction,
      (fun _ : String => some (0 : ℚ))
          ("https://" ++ "gw.io" ++ "/health" ++ "?ip=9") = none →
      checkVMReady (fun _ => some 0) isProduction 0 "gw.io/?ip=9" = false)) :=
  ⟨by decide, by decide,
    checkVMReady_spec (fun _ => some 0) 0 "gw.io/?ip=9" "gw.io" "?ip=9"
      (by decide) (by decide)⟩

/-- The `WHERE pool = $ AND state = 'available'` row predicate. -/
def rowAvailableIn (pool : String) (r : VMRow) : Bool :=
  r.pool == pool && r.state == "available"

/-- `SELECT ... FROM vbrowser WHERE pool = $1 AND state = 'available'`. -/
def availableRows (pool : String) (db : List VMRow) : List VMRow :=
  db.filter (rowAvailableIn pool)

/-- `ORDER BY id ASC` comparison. -/
def rowLeId (a b : VMRow) : Prop := a.id ≤ b.id

instance decRowLeId : DecidableRel rowLeId := fun a b => Nat.decLe a.id b.id

instance totalRowLeId : IsTotal VMRow rowLeId := ⟨fun a b => Nat.le_total a.id b.id⟩

instance transRowLeId : IsTrans VMRow rowLeId := ⟨fun _ _ _ => Nat.le_trans⟩

/-- `ORDER BY id ASC` on a row set. -/
def orderById (rows : List VMRow) : List VMRow :=
  rows.insertionSort rowLeId

/-- The atomic lease statement inside `assignVM` (base.ts `getAssignedVM`):
`UPDATE vbrowser SET roomId, uid, heartbeatTime, assignTime, state='used'
WHERE id = (SELECT id FROM vbrowser WHERE state='available' AND pool=$
ORDER BY id ASC FOR UPDATE SKIP LOCKED LIMIT 1) RETURNING data`, then
`rows[0]?.data`.  The returned `Option VM` is `none` both when no row was
selected and when the selected row's `data` column is NULL (JavaScript
conflates the two as falsy, and the caller's retry loop treats them alike). -/
def getAssignedVM (roomId uid : String) (now : Int) (pool : String)
    (db : List VMRow) : Option VM × List VMRow :=
  match (orderById (availableRows pool db)).head? with
  | none => (none, db)
  | some sel =>
    (sel.data,
     db.map (fun r =>
       if r.id == sel.id then
         { r with roomId := some roomId, uid := some uid,
                  heartbeatTime := some now, assignTime := some now,
                  state := "used" }
       else r))

theorem orderById_head_spec (rows : List VMRow) (sel : VMRow)
    (h : (orderById rows).head? = some sel) :
    sel ∈ rows ∧ ∀ r ∈ rows, sel.id ≤ r.id := by
  have hperm := List.perm_insertionSort rowLeId rows
  cases hs : orderById rows with
  | nil => rw [hs] at h; exact absurd h (by simp)
  | cons a tl =>
    rw [hs] at h
    have ha : a = sel := by simpa using h
    subst ha
    have hsorted := List.sorted_insertionSort rowLeId rows
    have hs2 : rows.insertionSort rowLeId = a :: tl := hs
    rw [hs2] at hsorted
    have hsa : a ∈ orderById rows := by rw [hs]; exact List.mem_cons_self a tl
    constructor
    · exact hperm.mem_iff.mp hsa
    · intro r hr
      have hr2 : r ∈ a :: tl := by
        rw [← hs2]
        exact hperm.mem_iff.mpr hr
      rcases List.mem_cons.mp hr2 with hra | hrtl
      · exact Nat.le_of_eq (congrArg VMRow.id hra.symm)
      · exact List.rel_of_sorted_cons hsorted r hrtl

theorem orderById_head_none (rows : List VMRow)
    (h : (orderById rows).head? = none) : rows = [] := by
  have hperm := List.perm_insertionSort rowLeId rows
  cases hs : orderById rows with
  | nil =>
    have : rows.insertionSort rowLeId = [] := hs
    rw [this] at hperm
    exact hperm.symm.eq_nil
  | cons a tl => rw [hs] at h; simp at h

/-- C1: every lease attempt (`getAssignedVM` inside `assignVM`) updates
exactly the row of lowest `id` among the pool's rows in state `available`
(at most one row), sets `roomId`, `uid`, `heartbeatTime`, `assignTime` and
`state = 'used'` on it, returns that row's prior `data` field, and never
selects a row of another state or another pool; with no available row the
store is unchanged and nothing is returned. -/
theorem getAssignedVM_lease_spec (roomId uid : String) (now : Int) (pool : String)
    (db : List VMRow) (hid : (db.map VMRow.id).Nodup) :
    (availableRows pool db = [] → getAssignedVM roomId uid now pool db = (none, db)) ∧
    (availableRows pool db ≠ [] →
      ∃ sel ∈ db,
        sel.pool = pool ∧ sel.state = "available" ∧
        (∀ r ∈ db, r.pool = pool → r.state = "available" → sel.id ≤ r.id) ∧
        (∀ r ∈ db, ¬(r.pool = pool ∧ r.state = "available") → r.id ≠ sel.id) ∧
        (getAssignedVM roomId uid now pool db).1 = sel.data ∧
        (getAssignedVM roomId uid now pool db).2 =
          db.map (fun r =>
            if r.id == sel.id then
              { r with roomId := some roomId, uid := some uid,
                       heartbeatTime := some now, assignTime := some now,
                       state := "used" }
            else r)) := by
  constructor
  · intro hav
    simp [getAssignedVM, hav, orderById, List.insertionSort]
  · intro hav
    cases hh : (orderById (availableRows pool db)).head? with
    | none => exact absurd (orderById_head_none _ hh) hav
    | some sel =>
      obtain ⟨hmem, hmin⟩ := orderById_head_spec _ _ hh
      have hmemdb : sel ∈ db := (List.mem_filter.mp hmem).1
      have hsel : rowAvailableIn pool sel = true := (List.mem_filter.mp hmem).2
      have hpair : sel.pool = pool ∧ sel.state = "available" := by
        have := hsel
        simp [rowAvailableIn] at this
        exact this
      refine ⟨sel, hmemdb, hpair.1, hpair.2, ?_, ?_, ?_, ?_⟩
      · intro r hr hrp hrs
        exact hmin r (List.mem_filter.mpr ⟨hr, by simp [rowAvailableIn, hrp, hrs]⟩)
      · intro r hr hnot hideq
        have hrs : r = sel := List.inj_on_of_nodup_map hid hr hmemdb hideq
        exact hnot (hrs ▸ hpair)
      · simp only [getAssignedVM, hh]
      · simp only [getAssignedVM, hh]

/-- Concrete three-row store exercising the C1 witness. -/
def c1Db : List VMRow :=
  [{ id := 2, pool := "P", vmid := "a", state := "available", creationTime := 0 },
   { id := 1, pool := "P", vmid := "b", state := "used", creationTime := 0 },
   { id := 3, pool := "Q", vmid := "c", state := "available", creationTime := 0 }]

theorem getAssignedVM_lease_spec_witness :
    ((c1Db.map VMRow.id).Nodup) ∧
    ((availableRows "P" c1Db = [] → getAssignedVM "r" "u" 5 "P" c1Db = (none, c1Db)) ∧
     (availableRows "P" c1Db ≠ [] →
      ∃ sel ∈ c1Db,
        sel.pool = "P" ∧ sel.state = "available" ∧
        (∀ r ∈ c1Db, r.pool = "P" → r.state = "available" → sel.id ≤ r.id) ∧
        (∀ r ∈ c1Db, ¬(r.pool = "P" ∧ r.state = "available") → r.id ≠ sel.id) ∧
        (getAssignedVM "r" "u" 5 "P" c1Db).1 = sel.data ∧
        (getAssignedVM "r" "u" 5 "P" c1Db).2 =
          c1Db.map (fun r =>
            if r.id == sel.id then
              { r with roomId := some "r", uid := some "u",
                       heartbeatTime := some 5, assignTime := some 5,
                       state := "used" }
            else r))) :=
  ⟨by decide, getAssignedVM_lease_spec "r" "u" 5 "P" c1Db (by decide)⟩

/-- `SELECT uid FROM vbrowser WHERE pool = $1 AND vmid = $2` (first row). -/
def findRow (pool vmid : String) (db : List VMRow) : Option VMRow :=
  db.find? (fun r => r.pool == pool && r.vmid == vmid)

/-- The field updates of the `resetVM` UPDATE statement. -/
def resetRow (now : Int) (r : VMRow) : VMRow :=
  { r with roomId := none, uid := none, retries := 0, heartbeatTime := none,
           resetTime := some now, readyTime := none, assignTime := none,
           data := none, state := "staging" }

/-- `resetVM` from base.ts.  Returns the updated store and whether the VM was
terminated (the zero-rows-updated fallback, which also issues the wrapper's
`DELETE ... WHERE pool AND vmid`).  The uid guard follows the source's
truthiness test `vmUid.rows[0]?.uid && vmUid.rows[0]?.uid !== uid`: a missing
row, a NULL stored uid or an empty-string stored uid does not block.  The
provider-side `rebootVM` call has no store effect. -/
def resetBlocked (pool vmid : String) (uidArg : Option String)
    (db : List VMRow) : Bool :=
  match uidArg with
  | none => false
  | some u =>
    match findRow pool vmid db with
    | none => false
    | some r =>
      match r.uid with
      | none => false
      | some stored => stored ≠ "" && stored ≠ u

def resetVM (pool vmid : String) (uidArg : Option String) (now : Int)
    (db : List VMRow) : List VMRow × Bool :=
  if resetBlocked pool vmid uidArg db then (db, false)
  else
    let matched := db.filter (fun r => r.pool == pool && r.vmid == vmid)
    let db2 := db.map (fun r =>
      if r.pool == pool && r.vmid == vmid then resetRow now r else r)
    if matched.length == 0 then
      (db2.filter (fun r => !(r.pool == pool && r.vmid == vmid)), true)
    else (db2, false)

theorem mem_zip_map {α β : Type} (f : α → β) :
    ∀ (l : List α) (p : α × β), p ∈ l.zip (l.map f) → p.2 = f p.1 := by
  intro l
  induction l with
  | nil => intro p hp; simp at hp
  | cons a tl ih =>
    intro p hp
    rw [List.map_cons, List.zip_cons_cons] at hp
    rcases List.mem_cons.mp hp with hpa | hptl
    · rw [hpa]
    · exact ih p hptl

theorem resetBlocked_false (pool vmid : String) (uidArg : Option String)
    (db : List VMRow)
    (hperm : uidArg = none ∨ ∃ r, findRow pool vmid db = some r ∧ r.uid = uidArg) :
    resetBlocked pool vmid uidArg db = false := by
  rcases hperm with h | ⟨r, hfind, huid⟩
  · rw [h, resetBlocked]
  · cases uidArg with
    | none => rw [resetBlocked]
    | some u =>
      unfold resetBlocked
      rw [hfind]
      simp [huid]

/-- C5: for an existing record `(pool, vmid)`, a permitted `resetVM` (no uid,
or a uid matching the stored lessee) leaves every matching row in state
`staging` with `roomId`, `uid`, `heartbeatTime`, `readyTime`, `assignTime`
and `data` null, `retries = 0` and `resetTime = now`, touches no other row,
and does not terminate; with no record it terminates the VM and leaves the
store unchanged. -/
theorem resetVM_spec (pool vmid : String) (uidArg : Option String) (now : Int)
    (db : List VMRow)
    (hperm : uidArg = none ∨ ∃ r, findRow pool vmid db = some r ∧ r.uid = uidArg) :
    ((∀ r ∈ db, ¬(r.pool = pool ∧ r.vmid = vmid)) →
       resetVM pool vmid uidArg now db = (db, true)) ∧
    ((∃ r ∈ db, r.pool = pool ∧ r.vmid = vmid) →
       ∃ db2, resetVM pool vmid uidArg now db = (db2, false) ∧
         db2.length = db.length ∧
         ∀ p ∈ db.zip db2,
           (p.1.pool = pool ∧ p.1.vmid = vmid →
              p.2.state = "staging" ∧ p.2.roomId = none ∧ p.2.uid = none ∧
              p.2.retries = 0 ∧ p.2.heartbeatTime = none ∧
              p.2.readyTime = none ∧ p.2.assignTime = none ∧ p.2.data = none ∧
              p.2.resetTime = some now ∧ p.2.id = p.1.id ∧
              p.2.vmid = p.1.vmid ∧ p.2.pool = p.1.pool) ∧
           (¬(p.1.pool = pool ∧ p.1.vmid = vmid) → p.2 = p.1)) := by
  have hb := resetBlocked_false pool vmid uidArg db hperm
  constructor
  · intro hnone
    have hbool : ∀ r ∈ db, (r.pool == pool && r.vmid == vmid) = false := by
      intro r hr
      by_contra hcon
      rw [Bool.not_eq_false, Bool.and_eq_true, beq_iff_eq, beq_iff_eq] at hcon
      exact hnone r hr hcon
    have hfilter : db.filter (fun r => r.pool == pool && r.vmid == vmid) = [] :=
      List.filter_eq_nil_iff.mpr (fun r hr => by rw [hbool r hr]; simp)
    have hmap : db.map (fun r =>
        if r.pool == pool && r.vmid == vmid then resetRow now r else r) = db := by
      have hcg : db.map (fun r =>
          if r.pool == pool && r.vmid == vmid then resetRow now r else r) =
          db.map id :=
        List.map_congr_left (fun r hr => by rw [hbool r hr]; simp)
      rw [hcg, List.map_id]
    have hfilter2 : db.filter (fun r => !(r.pool == pool && r.vmid == vmid)) = db :=
      List.filter_eq_self.mpr (fun r hr => by rw [hbool r hr]; rfl)
    rw [resetVM, hb]
    simp only [Bool.false_eq_true, if_false, hfilter, List.length_nil]
    rw [hmap, hfilter2]
    rfl
  · rintro ⟨r0, hr0, hr0p, hr0v⟩
    have hr0bool : (r0.pool == pool && r0.vmid == vmid) = true := by
      rw [Bool.and_eq_true, beq_iff_eq, beq_iff_eq]
      exact ⟨hr0p, hr0v⟩
    have hmem : r0 ∈ db.filter (fun r => r.pool == pool && r.vmid == vmid) :=
      List.mem_filter.mpr ⟨hr0, hr0bool⟩
    have hlen : (db.filter (fun r => r.pool == pool && r.vmid == vmid)).length ≠ 0 := by
      intro hzero
      rw [List.length_eq_zero] at hzero
      rw [hzero] at hmem
      exact List.not_mem_nil r0 hmem
    have hlenb : ((db.filter (fun r => r.pool == pool && r.vmid == vmid)).length == 0)
        = false := by
      rw [Bool.eq_false_iff]
      intro hcon
      exact hlen (by simpa using hcon)
    refine ⟨db.map (fun r =>
        if r.pool == pool && r.vmid == vmid then resetRow now r else r), ?_, ?_, ?_⟩
    · rw [resetVM, hb]
      simp only [Bool.false_eq_true, if_false, hlenb]
    · exact List.length_map db _
    · intro p hp
      have hpf := mem_zip_map _ db p hp
      constructor
      · intro hmatch
        have hmb : (p.1.pool == pool && p.1.vmid == vmid) = true := by
          rw [Bool.and_eq_true, beq_iff_eq, beq_iff_eq]
          exact hmatch
        rw [hpf, hmb]
        simp [resetRow]
      · intro hnomatch
        have hmb : (p.1.pool == pool && p.1.vmid == vmid) = false := by
          by_contra hcon
          rw [Bool.not_eq_false, Bool.and_eq_true, beq_iff_eq, beq_iff_eq] at hcon
          exact hnomatch hcon
        rw [hpf, hmb]
        simp

/-- Concrete store exercising the C5 witness. -/
def c5Db : List VMRow :=
  [{ id := 1, pool := "P", vmid := "v", state := "used", creationTime := 0,
     roomId := some "room", uid := some "u1", retries := 3 },
   { id := 2, pool := "P", vmid := "w", state := "available", creationTime := 0 }]

theorem resetVM_spec_witness :
    ((none : Option String) = none ∨
      ∃ r, findRow "P" "v" c5Db = some r ∧ r.uid = none) ∧
    (((∀ r ∈ c5Db, ¬(r.pool = "P" ∧ r.vmid = "v")) →
       resetVM "P" "v" none 7 c5Db = (c5Db, true)) ∧
     ((∃ r ∈ c5Db, r.pool = "P" ∧ r.vmid = "v") →
       ∃ db2, resetVM "P" "v" none 7 c5Db = (db2, false) ∧
         db2.length = c5Db.length ∧
         ∀ p ∈ c5Db.zip db2,
           (p.1.pool = "P" ∧ p.1.vmid = "v" →
              p.2.state = "staging" ∧ p.2.roomId = none ∧ p.2.uid = none ∧
              p.2.retries = 0 ∧ p.2.heartbeatTime = none ∧
              p.2.readyTime = none ∧ p.2.assignTime = none ∧ p.2.data = none ∧
              p.2.resetTime = some 7 ∧ p.2.id = p.1.id ∧
              p.2.vmid = p.1.vmid ∧ p.2.pool = p.1.pool) ∧
           (¬(p.1.pool = "P" ∧ p.1.vmid = "v") → p.2 = p.1))) :=
  ⟨Or.inl rfl, resetVM_spec "P" "v" none 7 c5Db (Or.inl rfl)⟩

/-- The shrink query's uptime filter:
`CAST(extract(epoch from now() - creationTime) as INT) % (60 * 60) > $2`
(Postgres `%` truncates toward zero, like `Int.tmod`). -/
def uptimeFracEligible (minUptimeSeconds now : Int) (r : VMRow) : Bool :=
  decide ((now - r.creationTime).tmod (60 * 60) > minUptimeSeconds)

/-- The row set the shrink query's WHERE clause selects from:
pool, state 'available', and uptime-mod-hour above the floor. -/
def eligibleRows (pool : String) (minUptimeSeconds now : Int)
    (db : List VMRow) : List VMRow :=
  db.filter (fun r => rowAvailableIn pool r && uptimeFracEligible minUptimeSeconds now r)

/-- One tick of `resizeVMGroupDecr` from base.ts: when
`available > highWatermark`, delete the row selected by
`... WHERE pool AND state='available' AND uptime-eligible ORDER BY id ASC
FOR UPDATE SKIP LOCKED LIMIT 1 OFFSET minSize`, then run
`terminateVMWrapper(vmid)`, whose own `DELETE ... WHERE pool AND vmid`
is also modelled.  Returns the store and the terminated vmid (if any). -/
def resizeVMGroupDecr (pool : String) (minSize : Nat)
    (minUptimeSeconds highWatermark now : Int) (db : List VMRow) :
    List VMRow × Option String :=
  if ((availableRows pool db).length : Int) > highWatermark then
    match ((orderById (eligibleRows pool minUptimeSeconds now db)).drop minSize).head? with
    | some victim =>
      let db1 := db.filter (fun r => !(r.id == victim.id))
      (db1.filter (fun r => !(r.pool == pool && r.vmid == victim.vmid)),
       some victim.vmid)
    | none => (db, none)
  else (db, none)

/-- Spec-side selection for claim C3, written from the claim's words: order
the pool's 'available' rows by id ascending, skip the first `minSize` rows,
and take the first remaining row whose uptime-mod-hour exceeds the floor. -/
def c3ClaimVictim (pool : String) (minSize : Nat) (minUptimeSeconds now : Int)
    (db : List VMRow) : Option VMRow :=
  (((orderById (availableRows pool db)).drop minSize).filter
    (uptimeFracEligible minUptimeSeconds now)).head?

/-- Concrete store separating the code's shrink selection from claim C3's. -/
def c3Db : List VMRow :=
  [{ id := 1, pool := "P", vmid := "v1", state := "available", creationTime := 10000 },
   { id := 2, pool := "P", vmid := "v2", state := "available", creationTime := 9000 },
   { id := 3, pool := "P", vmid := "v3", state := "available", creationTime := 8000 }]

/-- C3 counterexample: with `minSize = 1`, an uptime floor of 600 s and the
store `c3Db` (row 1 uptime-ineligible, rows 2 and 3 eligible), the code
deletes the row with vmid `v3` — the uptime filter applies before the
`OFFSET minSize` — while the claim's selection (skip `minSize` rows of all
available rows, then first eligible) picks vmid `v2`, which the code keeps. -/
theorem resizeVMGroupDecr_c3_selection_fails :
    (resizeVMGroupDecr "P" 1 600 0 10000 c3Db).2 = some "v3" ∧
    (c3ClaimVictim "P" 1 600 10000 c3Db).map (fun r => r.vmid) = some "v2" ∧
    (resizeVMGroupDecr "P" 1 600 0 10000 c3Db).1.any
      (fun r => r.vmid == "v2") = true := by
  refine ⟨?_, ?_, ?_⟩ <;> decide

theorem sorted_drop_head_countP (s : List VMRow) (hs : s.Sorted rowLeId)
    (hn : (s.map VMRow.id).Nodup) (m : Nat) (v : VMRow)
    (h : (s.drop m).head? = some v) :
    s.countP (fun r => decide (r.id < v.id)) = m := by
  induction s generalizing m with
  | nil => rw [List.drop_nil] at h; simp at h
  | cons a tl ih =>
    have hs' : tl.Sorted rowLeId := hs.of_cons
    have hn' : (tl.map VMRow.id).Nodup := by
      rw [List.map_cons, List.nodup_cons] at hn
      exact hn.2
    cases m with
    | zero =>
      rw [List.drop_zero] at h
      have hv : a = v := by simpa using h
      subst hv
      rw [List.countP_cons]
      have h1 : (decide (a.id < a.id)) = false := by simp
      rw [h1, if_neg (by simp)]
      have h2 : tl.countP (fun r => decide (r.id < a.id)) = 0 := by
        rw [List.countP_eq_zero]
        intro x hx
        simp only [decide_eq_true_eq]
        intro hlt
        have hle : a.id ≤ x.id := List.rel_of_sorted_cons hs x hx
        omega
      rw [h2]
    | succ m' =>
      have hdrop : (a :: tl).drop (m' + 1) = tl.drop m' := rfl
      rw [hdrop] at h
      have hvtl : v ∈ tl :=
        List.mem_of_mem_drop (List.mem_of_mem_head? (Option.mem_def.mpr h))
      have hav : a.id < v.id := by
        have hle : a.id ≤ v.id := List.rel_of_sorted_cons hs v hvtl
        have hne : a.id ≠ v.id := by
          rw [List.map_cons, List.nodup_cons] at hn
          intro heq
          exact hn.1 (heq ▸ List.mem_map_of_mem VMRow.id hvtl)
        omega
      rw [List.countP_cons, ih hs' hn' m' h, if_pos (by simpa using hav)]

theorem filter_id_eq_singleton (l : List VMRow) (v : VMRow)
    (hnodup : l.Nodup) (hinj : ∀ x ∈ l, x.id = v.id → x = v) (hv : v ∈ l) :
    l.filter (fun r => r.id == v.id) = [v] := by
  have hall : ∀ x ∈ l.filter (fun r => r.id == v.id), x = v := by
    intro x hx
    have hxid : x.id = v.id := by
      have := (List.mem_filter.mp hx).2
      simpa using this
    exact hinj x (List.mem_filter.mp hx).1 hxid
  have hvF : v ∈ l.filter (fun r => r.id == v.id) :=
    List.mem_filter.mpr ⟨hv, by simp⟩
  have hFnodup : (l.filter (fun r => r.id == v.id)).Nodup := hnodup.filter _
  cases hF : l.filter (fun r => r.id == v.id) with
  | nil => rw [hF] at hvF; exact absurd hvF (List.not_mem_nil v)
  | cons x xs =>
    have hx : x = v := hall x (by rw [hF]; exact List.mem_cons_self x xs)
    have hxs : xs = [] := by
      cases xs with
      | nil => rfl
      | cons y ys =>
        have hy : y = v :=
          hall y (by rw [hF]; exact List.mem_cons_of_mem x (List.mem_cons_self y ys))
        rw [hF, List.nodup_cons] at hFnodup
        exact absurd (by rw [hx, ← hy]; exact List.mem_cons_self y ys) hFnodup.1
    rw [hx, hxs]

theorem length_filter_not_id (l : List VMRow) (v : VMRow) (hnodup : l.Nodup)
    (hinj : ∀ x ∈ l, x.id = v.id → x = v) (hv : v ∈ l) :
    (l.filter (fun r => !(r.id == v.id))).length = l.length - 1 := by
  have hsplit := List.filter_append_perm (fun r => r.id == v.id) l
  have hlen := hsplit.length_eq
  rw [List.length_append, filter_id_eq_singleton l v hnodup hinj hv] at hlen
  simp only [List.length_cons, List.length_nil] at hlen
  omega

/-- C3 amended: one shrink tick deletes at most one row — when
`available > highWatermark`, the deleted row is chosen by ordering the pool's
'available' rows that satisfy the uptime filter
(`(now - creationTime) mod 3600 > VM_MIN_UPTIME_MINUTES * 60`) by id
ascending and skipping the first `minSize` of those (the uptime filter
applies before the `OFFSET minSize`, not after); otherwise the store is
unchanged, and the count of 'available' rows never drops below `minSize`. -/
theorem resizeVMGroupDecr_spec (pool : String) (minSize : Nat)
    (minUptimeSeconds highWatermark now : Int) (db : List VMRow)
    (hid : (db.map VMRow.id).Nodup)
    (hpv : (db.map (fun r => (r.pool, r.vmid))).Nodup) :
    ((resizeVMGroupDecr pool minSize minUptimeSeconds highWatermark now db).2 = none →
      (resizeVMGroupDecr pool minSize minUptimeSeconds highWatermark now db).1 = db) ∧
    (∀ v, (resizeVMGroupDecr pool minSize minUptimeSeconds highWatermark now db).2 = some v →
      ∃ victim, victim ∈ eligibleRows pool minUptimeSeconds now db ∧
        victim.vmid = v ∧
        (eligibleRows pool minUptimeSeconds now db).countP
          (fun r => decide (r.id < victim.id)) = minSize ∧
        (resizeVMGroupDecr pool minSize minUptimeSeconds highWatermark now db).1 =
          db.filter (fun r => !(r.id == victim.id))) ∧
    (min minSize (availableRows pool db).length ≤
      (availableRows pool
        (resizeVMGroupDecr pool minSize minUptimeSeconds highWatermark now db).1).length) := by
  have hdbnodup : db.Nodup := List.Nodup.of_map VMRow.id hid
  by_cases hcond : ((availableRows pool db).length : Int) > highWatermark
  · cases hh : ((orderById (eligibleRows pool minUptimeSeconds now db)).drop minSize).head? with
    | none =>
      have hres : resizeVMGroupDecr pool minSize minUptimeSeconds highWatermark now db =
          (db, none) := by
        unfold resizeVMGroupDecr
        rw [if_pos hcond, hh]
      rw [hres]
      exact ⟨fun _ => rfl, fun v hv => by simp at hv, min_le_right _ _⟩
    | some victim =>
      have hperm := List.perm_insertionSort rowLeId (eligibleRows pool minUptimeSeconds now db)
      have hsub_e : List.Sublist (eligibleRows pool minUptimeSeconds now db) db :=
        List.filter_sublist db
      have heid : ((eligibleRows pool minUptimeSeconds now db).map VMRow.id).Nodup :=
        List.Nodup.sublist (hsub_e.map VMRow.id) hid
      have hsid : ((orderById (eligibleRows pool minUptimeSeconds now db)).map VMRow.id).Nodup :=
        ((hperm.map VMRow.id).nodup_iff).mpr heid
      have hsorted := List.sorted_insertionSort rowLeId (eligibleRows pool minUptimeSeconds now db)
      have hvmem_s : victim ∈ orderById (eligibleRows pool minUptimeSeconds now db) :=
        List.mem_of_mem_drop (List.mem_of_mem_head? (Option.mem_def.mpr hh))
      have hvmem_e : victim ∈ eligibleRows pool minUptimeSeconds now db :=
        hperm.mem_iff.mp hvmem_s
      have hvdb : victim ∈ db := (List.mem_filter.mp hvmem_e).1
      have hvavail : rowAvailableIn pool victim = true := by
        have hvboth := (List.mem_filter.mp hvmem_e).2
        simp only [Bool.and_eq_true] at hvboth
        exact hvboth.1
      have hvpool : victim.pool = pool ∧ victim.state = "available" := by
        have := hvavail
        simp [rowAvailableIn] at this
        exact this
      have hcount : (eligibleRows pool minUptimeSeconds now db).countP
          (fun r => decide (r.id < victim.id)) = minSize := by
        have hc := sorted_drop_head_countP
          (orderById (eligibleRows pool minUptimeSeconds now db)) hsorted hsid
          minSize victim hh
        rw [← hperm.countP_eq]
        exact hc
      have hinjv : ∀ x ∈ db, x.id = victim.id → x = victim :=
        fun x hx hxid => List.inj_on_of_nodup_map hid hx hvdb hxid
      have hsecond : (db.filter (fun r => !(r.id == victim.id))).filter
          (fun r => !(r.pool == pool && r.vmid == victim.vmid)) =
          db.filter (fun r => !(r.id == victim.id)) := by
        rw [List.filter_eq_self]
        intro r hr
        have hrdb : r ∈ db := (List.mem_filter.mp hr).1
        have hrid : r.id ≠ victim.id := by
          have := (List.mem_filter.mp hr).2
          simpa using this
        by_contra hcon
        simp only [Bool.not_eq_true, Bool.not_eq_false', Bool.and_eq_true,
          beq_iff_eq] at hcon
        have hpair : (fun r : VMRow => (r.pool, r.vmid)) r =
            (fun r : VMRow => (r.pool, r.vmid)) victim := by
          simp only [Prod.mk.injEq]
          exact ⟨hcon.1.trans hvpool.1.symm, hcon.2⟩
        have hreq : r = victim := List.inj_on_of_nodup_map hpv hrdb hvdb hpair
        exact hrid (congrArg VMRow.id hreq)
      have hres : resizeVMGroupDecr pool minSize minUptimeSeconds highWatermark now db =
          (db.filter (fun r => !(r.id == victim.id)), some victim.vmid) := by
        unfold resizeVMGroupDecr
        rw [if_pos hcond, hh]
        dsimp only
        rw [hsecond]
      have hcommute : availableRows pool (db.filter (fun r => !(r.id == victim.id))) =
          (availableRows pool db).filter (fun r => !(r.id == victim.id)) := by
        unfold availableRows
        rw [List.filter_filter, List.filter_filter]
        exact List.filter_congr (fun a _ => Bool.and_comm _ _)
      have hAids : ((availableRows pool db).map VMRow.id).Nodup :=
        List.Nodup.sublist ((List.filter_sublist db).map VMRow.id) hid
      have hAnodup : (availableRows pool db).Nodup :=
        List.Nodup.sublist (List.filter_sublist db) hdbnodup
      have hvA : victim ∈ availableRows pool db :=
        List.mem_filter.mpr ⟨hvdb, hvavail⟩
      have hinjA : ∀ x ∈ availableRows pool db, x.id = victim.id → x = victim :=
        fun x hx hxid => hinjv x (List.mem_filter.mp hx).1 hxid
      have hlenA : ((availableRows pool db).filter
          (fun r => !(r.id == victim.id))).length =
          (availableRows pool db).length - 1 :=
        length_filter_not_id (availableRows pool db) victim hAnodup hinjA hvA
      have hEA : (eligibleRows pool minUptimeSeconds now db).length ≤
          (availableRows pool db).length := by
        unfold eligibleRows availableRows
        rw [← List.countP_eq_length_filter
              (fun r => rowAvailableIn pool r && uptimeFracEligible minUptimeSeconds now r) db,
            ← List.countP_eq_length_filter (rowAvailableIn pool) db]
        exact List.countP_mono_left (fun x _ hpx => by
          simp only [Bool.and_eq_true] at hpx
          exact hpx.1)
      have hEgt : minSize < (eligibleRows pool minUptimeSeconds now db).length := by
        have hne : ¬ (orderById (eligibleRows pool minUptimeSeconds now db)).length ≤ minSize := by
          intro hle
          rw [List.drop_eq_nil_of_le hle] at hh
          simp at hh
        have hlt : minSize < (orderById (eligibleRows pool minUptimeSeconds now db)).length :=
          Nat.lt_of_not_le hne
        have hle2 : (orderById (eligibleRows pool minUptimeSeconds now db)).length =
            (eligibleRows pool minUptimeSeconds now db).length := hperm.length_eq
        omega
      refine ⟨?_, ?_, ?_⟩
      · intro hnone
        rw [hres] at hnone
        simp at hnone
      · intro v hv
        rw [hres] at hv
        have hvv : victim.vmid = v := by simpa using hv
        exact ⟨victim, hvmem_e, hvv, hcount, by rw [hres]⟩
      · rw [hres]
        show min minSize (availableRows pool db).length ≤
          (availableRows pool (db.filter (fun r => !(r.id == victim.id)))).length
        rw [hcommute, hlenA]
        have h1 : min minSize (availableRows pool db).length ≤ minSize :=
          min_le_left _ _
        omega
  · have hres : resizeVMGroupDecr pool minSize minUptimeSeconds highWatermark now db =
        (db, none) := by
      unfold resizeVMGroupDecr
      rw [if_neg hcond]
    rw [hres]
    exact ⟨fun _ => rfl, fun v hv => by simp at hv, min_le_right _ _⟩

theorem resizeVMGroupDecr_spec_witness :
    ((c3Db.map VMRow.id).Nodup) ∧
    ((c3Db.map (fun r => (r.pool, r.vmid))).Nodup) ∧
    (((resizeVMGroupDecr "P" 1 600 0 10000 c3Db).2 = none →
       (resizeVMGroupDecr "P" 1 600 0 10000 c3Db).1 = c3Db) ∧
     (∀ v, (resizeVMGroupDecr "P" 1 600 0 10000 c3Db).2 = some v →
       ∃ victim, victim ∈ eligibleRows "P" 600 10000 c3Db ∧
         victim.vmid = v ∧
         (eligibleRows "P" 600 10000 c3Db).countP
           (fun r => decide (r.id < victim.id)) = 1 ∧
         (resizeVMGroupDecr "P" 1 600 0 10000 c3Db).1 =
           c3Db.filter (fun r => !(r.id == victim.id))) ∧
     (min 1 (availableRows "P" c3Db).length ≤
       (availableRows "P" (resizeVMGroupDecr "P" 1 600 0 10000 c3Db).1).length)) :=
  ⟨by decide, by decide,
    resizeVMGroupDecr_spec "P" 1 600 0 10000 c3Db (by decide) (by decide)⟩

/-- `AssignedVM` (base.ts): the leased descriptor plus `assignTime`
(`{ ...selected, assignTime: Number(new Date()) }`). -/
structure AssignedVM where
  vm : VM
  assignTime : Int
deriving DecidableEq, Repr

/-- Observable outcome of one `assignVM` call: the returned value, the
committed store, whether `startVMWrapper` was issued, and whether the
`BEGIN TRANSACTION` on the private connection was reached. -/
structure AssignOutcome where
  ret : Option AssignedVM
  committed : List VMRow
  launched : Bool
  txOpened : Bool
deriving DecidableEq, Repr

/-- The row inserted by `startVMWrapper`:
`INSERT INTO vbrowser(pool, vmid, "creationTime", state) VALUES(.., 'staging')`. -/
def newStagingRow (pool vmid : String) (id : Nat) (now : Int) : VMRow :=
  { id := id, pool := pool, vmid := vmid, state := "staging", creationTime := now }

/-- The store right after `assignVM`'s warm-on-demand step: when
`minSize == 0` and no row is available, `startVMWrapper` has inserted a
fresh staging row through the global connection (outside the assignment
transaction, so it persists even across a rollback). -/
def assignBase (minSize : Nat) (pool : String) (now : Int) (newVmid : String)
    (newId : Nat) (db : List VMRow) : List VMRow :=
  if minSize == 0 && (availableRows pool db).length == 0 then
    db ++ [newStagingRow pool newVmid newId now]
  else db

/-- The `while (!selected)` retry loop of `assignVM`.  `queueAt k` is the
content of `vbrowser_queue` observed by iteration `k`; `base` is the
committed store at loop entry (restored by `ROLLBACK`); `txDb` is the
transaction's working store; `fuel` bounds the number of iterations modelled
(the source loop has no bound; no claim depends on the fuel-exhaustion
value, which is modelled as a rollback). -/
def assignLoop (roomId uid pool : String) (now : Int) (queueAt : Nat → List String)
    (base : List VMRow) : Nat → Nat → List VMRow → Option AssignedVM × List VMRow
  | _, 0, _ => (none, base)
  | k, fuel + 1, txDb =>
    if roomId ∈ queueAt k then
      match getAssignedVM roomId uid now pool txDb with
      | (some vm, txDb2) => (some ⟨vm, now⟩, txDb2)
      | (none, txDb2) => assignLoop roomId uid pool now queueAt base (k + 1) fuel txDb2
    else (none, base)

/-- `assignVM` from base.ts: falsy-argument guard, `BEGIN TRANSACTION`,
warm-on-demand launch when `minSize == 0` and `available == 0`, then the
lease retry loop; `COMMIT` on success, `ROLLBACK` when the room has left
`vbrowser_queue`. -/
def assignVM (roomId uid : String) (minSize : Nat) (pool : String) (now : Int)
    (newVmid : String) (newId : Nat) (queueAt : Nat → List String) (fuel : Nat)
    (db : List VMRow) : AssignOutcome :=
  if roomId = "" ∨ uid = "" then
    { ret := none, committed := db, launched := false, txOpened := false }
  else
    { ret := (assignLoop roomId uid pool now queueAt
        (assignBase minSize pool now newVmid newId db) 0 fuel
        (assignBase minSize pool now newVmid newId db)).1,
      committed := (assignLoop roomId uid pool now queueAt
        (assignBase minSize pool now newVmid newId db) 0 fuel
        (assignBase minSize pool now newVmid newId db)).2,
      launched := minSize == 0 && (availableRows pool db).length == 0,
      txOpened := true }

theorem assignLoop_zero (roomId uid pool : String) (now : Int)
    (queueAt : Nat → List String) (base txDb : List VMRow) (k : Nat) :
    assignLoop roomId uid pool now queueAt base k 0 txDb = (none, base) := rfl

theorem assignLoop_succ (roomId uid pool : String) (now : Int)
    (queueAt : Nat → List String) (base txDb : List VMRow) (k fuel : Nat) :
    assignLoop roomId uid pool now queueAt base k (fuel + 1) txDb =
      if roomId ∈ queueAt k then
        match getAssignedVM roomId uid now pool txDb with
        | (some vm, txDb2) => (some ⟨vm, now⟩, txDb2)
        | (none, txDb2) => assignLoop roomId uid pool now queueAt base (k + 1) fuel txDb2
      else (none, base) := rfl

/-- C10: with an empty (falsy) `roomId` or `uid`, `assignVM` returns absent
immediately: no transaction is opened, no VM launch is issued, and the store
is untouched. -/
theorem assignVM_falsy_guard (roomId uid : String) (minSize : Nat) (pool : String)
    (now : Int) (newVmid : String) (newId : Nat) (queueAt : Nat → List String)
    (fuel : Nat) (db : List VMRow) (h : roomId = "" ∨ uid = "") :
    assignVM roomId uid minSize pool now newVmid newId queueAt fuel db =
      { ret := none, committed := db, launched := false, txOpened := false } := by
  unfold assignVM
  rw [if_pos h]

theorem assignVM_falsy_guard_witness :
    (("" : String) = "" ∨ ("u" : String) = "") ∧
    assignVM "" "u" 0 "P" 0 "v" 9 (fun _ => ["r"]) 3
        [{ id := 1, pool := "P", vmid := "w", state := "available", creationTime := 0 }] =
      { ret := none,
        committed :=
          [{ id := 1, pool := "P", vmid := "w", state := "available", creationTime := 0 }],
        launched := false, txOpened := false } :=
  ⟨Or.inl rfl,
    assignVM_falsy_guard "" "u" 0 "P" 0 "v" 9 (fun _ => ["r"]) 3
      [{ id := 1, pool := "P", vmid := "w", state := "available", creationTime := 0 }]
      (Or.inl rfl)⟩

theorem getAssignedVM_nulldata (roomId uid : String) (now : Int) (pool : String)
    (txDb : List VMRow)
    (hinv : ∀ r ∈ txDb, r.pool = pool → r.state = "available" → r.data = none) :
    (getAssignedVM roomId uid now pool txDb).1 = none ∧
    (∀ r ∈ (getAssignedVM roomId uid now pool txDb).2,
      r.pool = pool → r.state = "available" → r.data = none) := by
  unfold getAssignedVM
  cases hh : (orderById (availableRows pool txDb)).head? with
  | none => exact ⟨rfl, hinv⟩
  | some sel =>
    dsimp only
    obtain ⟨hmem, _⟩ := orderById_head_spec _ _ hh
    have hdb : sel ∈ txDb := (List.mem_filter.mp hmem).1
    have hpred := (List.mem_filter.mp hmem).2
    have hps : sel.pool = pool ∧ sel.state = "available" := by
      simp [rowAvailableIn] at hpred
      exact hpred
    refine ⟨hinv sel hdb hps.1 hps.2, ?_⟩
    intro r2 hr2 hp hs
    obtain ⟨r, hr, hre⟩ := List.mem_map.mp hr2
    by_cases hc : (r.id == sel.id) = true
    · rw [hc] at hre
      simp only [if_true] at hre
      rw [← hre] at hs
      simp at hs
    · rw [Bool.eq_false_iff.mpr hc] at hre
      simp only [Bool.false_eq_true, if_false] at hre
      rw [← hre] at hp hs ⊢
      exact hinv r hr hp hs

theorem assignLoop_rollback (roomId uid pool : String) (now : Int)
    (queueAt : Nat → List String) (base : List VMRow) :
    ∀ fuel k txDb,
      (∀ r ∈ txDb, r.pool = pool → r.state = "available" → r.data = none) →
      (∃ j, j < fuel ∧ roomId ∉ queueAt (k + j)) →
      assignLoop roomId uid pool now queueAt base k fuel txDb = (none, base) := by
  intro fuel
  induction fuel with
  | zero => intro k txDb _ _; exact assignLoop_zero roomId uid pool now queueAt base txDb k
  | succ fuel ih =>
    rintro k txDb hinv ⟨j, hj, hq⟩
    rw [assignLoop_succ]
    by_cases hqk : roomId ∈ queueAt k
    · rw [if_pos hqk]
      obtain ⟨hret, hinv2⟩ := getAssignedVM_nulldata roomId uid now pool txDb hinv
      cases hga : getAssignedVM roomId uid now pool txDb with
      | mk ret txDb2 =>
        rw [hga] at hret hinv2
        dsimp only at hret hinv2
        subst hret
        apply ih (k + 1) txDb2 hinv2
        cases j with
        | zero =>
          rw [Nat.add_zero] at hq
          exact absurd hqk hq
        | succ j2 =>
          refine ⟨j2, by omega, ?_⟩
          have harith : k + 1 + j2 = k + (j2 + 1) := by omega
          rw [harith]
          exact hq
    · rw [if_neg hqk]

theorem nulldata_assignBase (minSize : Nat) (pool : String) (now : Int)
    (newVmid : String) (newId : Nat) (db : List VMRow)
    (hinv : ∀ r ∈ db, r.pool = pool → r.state = "available" → r.data = none) :
    ∀ r ∈ assignBase minSize pool now newVmid newId db,
      r.pool = pool → r.state = "available" → r.data = none := by
  unfold assignBase
  by_cases hB : (minSize == 0 && (availableRows pool db).length == 0) = true
  · rw [if_pos hB]
    intro r hr hp hs
    rcases List.mem_append.mp hr with hdb | hnew
    · exact hinv r hdb hp hs
    · have : r = newStagingRow pool newVmid newId now := by simpa using hnew
      rw [this] at hs
      simp [newStagingRow] at hs
  · rw [if_neg hB]
    exact hinv

/-- C2: whenever an iteration of the lease retry loop (within the given fuel)
finds the room absent from `vbrowser_queue`, `assignVM` rolls back and
returns absent: the committed store is exactly the pre-loop store (the
warm-on-demand staging insert, issued outside the transaction, persists),
so no lease attempted inside the transaction is committed and every
pre-existing row is unchanged.  The hypothesis that available rows carry no
cached descriptor (`data` NULL) characterises exactly the executions in
which every lease attempt returns falsy and the loop keeps iterating. -/
theorem assignVM_queue_cancel (roomId uid : String) (minSize : Nat) (pool : String)
    (now : Int) (newVmid : String) (newId : Nat) (queueAt : Nat → List String)
    (fuel : Nat) (db : List VMRow)
    (hroom : roomId ≠ "") (huid : uid ≠ "")
    (hnodata : ∀ r ∈ db, r.pool = pool → r.state = "available" → r.data = none)
    (hq : ∃ k, k < fuel ∧ roomId ∉ queueAt k) :
    (assignVM roomId uid minSize pool now newVmid newId queueAt fuel db).ret = none ∧
    (assignVM roomId uid minSize pool now newVmid newId queueAt fuel db).committed =
      assignBase minSize pool now newVmid newId db ∧
    ∀ r ∈ db,
      r ∈ (assignVM roomId uid minSize pool now newVmid newId queueAt fuel db).committed := by
  have hguard : ¬(roomId = "" ∨ uid = "") := by
    rintro (h | h)
    exacts [hroom h, huid h]
  have hbase_inv := nulldata_assignBase minSize pool now newVmid newId db hnodata
  obtain ⟨k, hk, hknot⟩ := hq
  have hloop := assignLoop_rollback roomId uid pool now queueAt
    (assignBase minSize pool now newVmid newId db) fuel 0
    (assignBase minSize pool now newVmid newId db) hbase_inv
    ⟨k, hk, by rw [Nat.zero_add]; exact hknot⟩
  unfold assignVM
  rw [if_neg hguard]
  dsimp only
  rw [hloop]
  refine ⟨rfl, rfl, ?_⟩
  intro r hr
  unfold assignBase
  by_cases hB : (minSize == 0 && (availableRows pool db).length == 0) = true
  · rw [if_pos hB]
    exact List.mem_append_left _ hr
  · rw [if_neg hB]
    exact hr

/-- Concrete store for the C2 witness: one available row with NULL data, and
a queue function that never contains the room. -/
def c2Db : List VMRow :=
  [{ id := 1, pool := "P", vmid := "w", state := "available", creationTime := 0 }]

theorem assignVM_queue_cancel_witness :
    (("r" : String) ≠ "") ∧ (("u" : String) ≠ "") ∧
    (∀ r ∈ c2Db, r.pool = "P" → r.state = "available" → r.data = none) ∧
    (∃ k, k < 1 ∧ "r" ∉ (fun _ : Nat => ([] : List String)) k) ∧
    ((assignVM "r" "u" 0 "P" 0 "nv" 9 (fun _ => []) 1 c2Db).ret = none ∧
     (assignVM "r" "u" 0 "P" 0 "nv" 9 (fun _ => []) 1 c2Db).committed =
       assignBase 0 "P" 0 "nv" 9 c2Db ∧
     ∀ r ∈ c2Db,
       r ∈ (assignVM "r" "u" 0 "P" 0 "nv" 9 (fun _ => []) 1 c2Db).committed) :=
  ⟨by decide, by decide, by decide, ⟨0, by decide, by decide⟩,
    assignVM_queue_cancel "r" "u" 0 "P" 0 "nv" 9 (fun _ => []) 1 c2Db
      (by decide) (by decide) (by decide) ⟨0, by decide, by decide⟩⟩

theorem getAssignedVM_preserves_ids (roomId uid : String) (now : Int) (pool : String)
    (txDb : List VMRow) :
    ((getAssignedVM roomId uid now pool txDb).2).map VMRow.id = txDb.map VMRow.id := by
  unfold getAssignedVM
  cases hh : (orderById (availableRows pool txDb)).head? with
  | none => rfl
  | some sel =>
    dsimp only
    rw [List.map_map]
    exact List.map_congr_left (fun r _ => by
      by_cases h : (r.id == sel.id) = true
      · simp only [Function.comp, h, if_true]
      · simp only [Function.comp, h]
        rw [if_neg (by simp [h])])

theorem getAssignedVM_preserves_row (roomId uid : String) (now : Int) (pool : String)
    (txDb : List VMRow) (r : VMRow)
    (hnodup : (txDb.map VMRow.id).Nodup) (hr : r ∈ txDb)
    (hst : r.state ≠ "available") :
    r ∈ (getAssignedVM roomId uid now pool txDb).2 := by
  unfold getAssignedVM
  cases hh : (orderById (availableRows pool txDb)).head? with
  | none => exact hr
  | some sel =>
    dsimp only
    obtain ⟨hselmem, _⟩ := orderById_head_spec _ _ hh
    have hseldb : sel ∈ txDb := (List.mem_filter.mp hselmem).1
    have hselavail : sel.state = "available" := by
      have hb := (List.mem_filter.mp hselmem).2
      simp [rowAvailableIn] at hb
      exact hb.2
    have hrid : (r.id == sel.id) = false := by
      by_contra hcon
      rw [Bool.not_eq_false] at hcon
      have hre : r = sel := List.inj_on_of_nodup_map hnodup hr hseldb (by simpa using hcon)
      exact hst (by rw [hre]; exact hselavail)
    exact List.mem_map.mpr ⟨r, hr, by simp [hrid]⟩

theorem assignLoop_preserves (roomId uid pool : String) (now : Int)
    (queueAt : Nat → List String) (base : List VMRow) (r : VMRow)
    (hrbase : r ∈ base) (hrstate : r.state ≠ "available") :
    ∀ fuel k txDb, (txDb.map VMRow.id).Nodup → r ∈ txDb →
      r ∈ (assignLoop roomId uid pool now queueAt base k fuel txDb).2 := by
  intro fuel
  induction fuel with
  | zero => intro k txDb _ _; exact hrbase
  | succ fuel ih =>
    intro k txDb hnodup hrtx
    rw [assignLoop_succ]
    by_cases hqk : roomId ∈ queueAt k
    · rw [if_pos hqk]
      have hids := getAssignedVM_preserves_ids roomId uid now pool txDb
      have hmem := getAssignedVM_preserves_row roomId uid now pool txDb r hnodup hrtx hrstate
      cases hga : getAssignedVM roomId uid now pool txDb with
      | mk ret txDb2 =>
        rw [hga] at hids hmem
        cases ret with
        | none => exact ih (k + 1) txDb2 (by rw [hids]; exact hnodup) hmem
        | some vm => exact hmem
    · rw [if_neg hqk]
      exact hrbase

/-- C4: `assignVM` (with non-empty arguments) issues `startVMWrapper` iff the
pool has `minSize == 0` and no 'available' row, before entering the lease
retry loop; the wrapper's own write path inserts a fresh 'staging' record
which is present in the committed store; with `minSize != 0` or a non-zero
available count no launch is issued and the pre-loop store is just `db`. -/
theorem assignVM_warm_on_demand (roomId uid : String) (minSize : Nat) (pool : String)
    (now : Int) (newVmid : String) (newId : Nat) (queueAt : Nat → List String)
    (fuel : Nat) (db : List VMRow)
    (hroom : roomId ≠ "") (huid : uid ≠ "")
    (hid : (db.map VMRow.id).Nodup) (hfresh : newId ∉ db.map VMRow.id) :
    ((assignVM roomId uid minSize pool now newVmid newId queueAt fuel db).launched = true ↔
      (minSize = 0 ∧ availableRows pool db = [])) ∧
    ((assignVM roomId uid minSize pool now newVmid newId queueAt fuel db).launched = true →
      newStagingRow pool newVmid newId now ∈
        (assignVM roomId uid minSize pool now newVmid newId queueAt fuel db).committed) ∧
    ((assignVM roomId uid minSize pool now newVmid newId queueAt fuel db).launched = false →
      assignBase minSize pool now newVmid newId db = db) := by
  have hguard : ¬(roomId = "" ∨ uid = "") := by
    rintro (h | h)
    exacts [hroom h, huid h]
  unfold assignVM
  rw [if_neg hguard]
  dsimp only
  refine ⟨?_, ?_, ?_⟩
  · simp [Bool.and_eq_true, beq_iff_eq, List.length_eq_zero]
  · intro hlaunch
    have hbase : assignBase minSize pool now newVmid newId db =
        db ++ [newStagingRow pool newVmid newId now] := by
      unfold assignBase
      rw [if_pos hlaunch]
    have hmem0 : newStagingRow pool newVmid newId now ∈
        assignBase minSize pool now newVmid newId db := by
      rw [hbase]
      exact List.mem_append_right _ (List.mem_cons_self _ _)
    have hnodup : ((assignBase minSize pool now newVmid newId db).map VMRow.id).Nodup := by
      rw [hbase, List.map_append]
      rw [List.nodup_append]
      refine ⟨hid, by simp, ?_⟩
      intro x hx
      simp only [List.map_cons, List.map_nil, List.mem_cons, List.not_mem_nil,
        or_false]
      intro hxeq
      rw [hxeq] at hx
      exact hfresh hx
    exact assignLoop_preserves roomId uid pool now queueAt
      (assignBase minSize pool now newVmid newId db)
      (newStagingRow pool newVmid newId now) hmem0 (by simp [newStagingRow]) fuel 0
      (assignBase minSize pool now newVmid newId db) hnodup hmem0
  · intro hlaunchf
    unfold assignBase
    rw [if_neg (by rw [hlaunchf]; simp)]

theorem assignVM_warm_on_demand_witness :
    (("r" : String) ≠ "") ∧ (("u" : String) ≠ "") ∧
    ((([] : List VMRow).map VMRow.id).Nodup) ∧
    (9 ∉ ([] : List VMRow).map VMRow.id) ∧
    (((assignVM "r" "u" 0 "P" 4 "nv" 9 (fun _ => ["r"]) 1 []).launched = true ↔
       (0 = 0 ∧ availableRows "P" ([] : List VMRow) = [])) ∧
     ((assignVM "r" "u" 0 "P" 4 "nv" 9 (fun _ => ["r"]) 1 []).launched = true →
       newStagingRow "P" "nv" 9 4 ∈
         (assignVM "r" "u" 0 "P" 4 "nv" 9 (fun _ => ["r"]) 1 []).committed) ∧
     ((assignVM "r" "u" 0 "P" 4 "nv" 9 (fun _ => ["r"]) 1 []).launched = false →
       assignBase 0 "P" 4 "nv" 9 [] = [])) :=
  ⟨by decide, by decide, by decide, by decide,
    assignVM_warm_on_demand "r" "u" 0 "P" 4 "nv" 9 (fun _ => ["r"]) 1 []
      (by decide) (by decide) (by decide) (by decide)⟩

/-- Outcome of the provider `getVM` call inside the staging check: a
descriptor (possibly null), a 404, or another (transient) error. -/
inductive GetVMOutcome where
  | ok (vm : Option VM)
  | err404
  | errOther
deriving DecidableEq, Repr

/-- Observable effects of processing one staging row in `checkStaging`. -/
structure StagingStepResult where
  db : List VMRow
  stageRetriesPushed : Option Nat := none
  stagingFailCounted : Bool := false
  stageFailPushed : Option String := none
  resetIssued : Option String := none
  powerOnIssued : Option String := none
  terminated : Bool := false
  rejected : Bool := false
deriving DecidableEq, Repr

/-- One staging row's processing step inside `checkStaging` (base.ts):
increment `retries` returning `(vmid, data, retries)`; wait out `minRetries`;
conditionally fetch the descriptor (404 deletes the row); persist a fetched
host; reject without a host; probe readiness; on ready flip the row to
'available' with `readyTime`; on not-ready either give up at 240 retries
(count the failure, push the vmid, `resetVM`) or attempt `powerOn` every
150th retry.  `fetch` and `probe` are oracles for the provider call and the
HTTP probe. -/
def checkStagingRow (pool : String) (minRetries : Nat) (rowid : Nat)
    (fetch : GetVMOutcome) (probe : String → Bool) (now : Int)
    (db : List VMRow) : StagingStepResult :=
  let db1 := db.map (fun r =>
    if r.id == rowid then { r with retries := r.retries + 1 } else r)
  match db1.find? (fun r => r.id == rowid) with
  | none => { db := db1, rejected := true }
  | some first =>
    if first.retries < minRetries then
      { db := db1 }
    else
      let shouldFetchVM := first.retries == minRetries + 1 || first.retries % 20 == 0
      let fetchAttempted := first.data.isNone && shouldFetchVM
      if fetchAttempted && (fetch == GetVMOutcome.err404) then
        { db := db1.filter (fun r => !(r.id == rowid)), rejected := true }
      else
        let vm2 : Option VM :=
          if fetchAttempted then
            match fetch with
            | GetVMOutcome.ok v => v
            | _ => none
          else first.data
        let db2 :=
          match vm2, fetchAttempted with
          | some v, true =>
            if v.host ≠ "" then
              db1.map (fun r => if r.id == rowid then { r with data := some v } else r)
            else db1
          | _, _ => db1
        match vm2 with
        | none => { db := db2, rejected := true }
        | some v =>
          if v.host == "" then { db := db2, rejected := true }
          else if probe v.host then
            { db := db2.map (fun r =>
                if r.id == rowid then
                  { r with state := "available", readyTime := some now }
                else r),
              stageRetriesPushed := some first.retries }
          else if 240 ≤ first.retries then
            { db := (resetVM pool first.vmid none now db2).1,
              stagingFailCounted := true,
              stageFailPushed := some first.vmid,
              resetIssued := some first.vmid,
              terminated := (resetVM pool first.vmid none now db2).2 }
          else
            { db := db2,
              powerOnIssued :=
                if first.retries % 150 == 0 then some first.vmid else none }

theorem find?_map_id_pred (rowid : Nat) (f : VMRow → VMRow)
    (hf : ∀ r, (f r).id = r.id) :
    ∀ (db : List VMRow) (r0 : VMRow),
      db.find? (fun r => r.id == rowid) = some r0 →
      (db.map f).find? (fun r => r.id == rowid) = some (f r0) := by
  intro db
  induction db with
  | nil => intro r0 h; simp at h
  | cons a tl ih =>
    intro r0 h
    by_cases ha : (a.id == rowid) = true
    · rw [@List.find?_cons_of_pos _ (fun r => r.id == rowid) a tl ha] at h
      have haeq : a = r0 := by simpa using h
      rw [List.map_cons,
        @List.find?_cons_of_pos _ (fun r => r.id == rowid) (f a) (List.map f tl)
          (show ((f a).id == rowid) = true by rw [hf a]; exact ha),
        haeq]
    · rw [@List.find?_cons_of_neg _ (fun r => r.id == rowid) a tl (by simpa using ha)] at h
      rw [List.map_cons,
        @List.find?_cons_of_neg _ (fun r => r.id == rowid) (f a) (List.map f tl)
          (show ¬((f a).id == rowid) = true by rw [hf a]; simpa using ha)]
      exact ih r0 h

theorem resetVM_none_result (pool vmid : String) (now : Int) (db : List VMRow)
    (hex : ∃ r ∈ db, r.pool = pool ∧ r.vmid = vmid) :
    resetVM pool vmid none now db =
      (db.map (fun r =>
        if r.pool == pool && r.vmid == vmid then resetRow now r else r),
       false) := by
  obtain ⟨r0, hr0, hr0p, hr0v⟩ := hex
  have hr0bool : (r0.pool == pool && r0.vmid == vmid) = true := by
    rw [Bool.and_eq_true, beq_iff_eq, beq_iff_eq]
    exact ⟨hr0p, hr0v⟩
  have hmem : r0 ∈ db.filter (fun r => r.pool == pool && r.vmid == vmid) :=
    List.mem_filter.mpr ⟨hr0, hr0bool⟩
  have hlen : (db.filter (fun r => r.pool == pool && r.vmid == vmid)).length ≠ 0 := by
    intro hzero
    rw [List.length_eq_zero] at hzero
    rw [hzero] at hmem
    exact List.not_mem_nil r0 hmem
  have hlenb : ((db.filter (fun r => r.pool == pool && r.vmid == vmid)).length == 0)
      = false := by
    rw [Bool.eq_false_iff]
    intro hcon
    exact hlen (by simpa using hcon)
  have hb : resetBlocked pool vmid none db = false := rfl
  rw [resetVM, hb]
  simp only [Bool.false_eq_true, if_false, hlenb]

/-- C8: for a staging row whose descriptor and host are already on file and
whose probe reports not ready: at an incremented retry count of at least 240
the loop counts the staging failure, pushes the vmid onto
`vBrowserStageFails` and issues `resetVM`, leaving every row of that
`(pool, vmid)` in state 'staging' with `retries = 0`; below 240 no reset is
issued — the store keeps only the retry increment — and `powerOn` is
attempted exactly when the incremented count is a multiple of 150. -/
theorem checkStagingRow_giveup (pool : String) (minRetries rowid : Nat)
    (fetch : GetVMOutcome) (probe : String → Bool) (now : Int)
    (db : List VMRow) (r0 : VMRow) (v : VM)
    (hfind : db.find? (fun r => r.id == rowid) = some r0)
    (hpool : r0.pool = pool)
    (hdata : r0.data = some v)
    (hhost : v.host ≠ "")
    (hmin : minRetries ≤ r0.retries + 1)
    (hprobe : probe v.host = false) :
    (240 ≤ r0.retries + 1 →
      (checkStagingRow pool minRetries rowid fetch probe now db).stagingFailCounted
          = true ∧
      (checkStagingRow pool minRetries rowid fetch probe now db).stageFailPushed
          = some r0.vmid ∧
      (checkStagingRow pool minRetries rowid fetch probe now db).resetIssued
          = some r0.vmid ∧
      ∀ r ∈ (checkStagingRow pool minRetries rowid fetch probe now db).db,
        r.pool = pool → r.vmid = r0.vmid →
          r.state = "staging" ∧ r.retries = 0 ∧ r.roomId = none ∧ r.uid = none) ∧
    (r0.retries + 1 < 240 →
      (checkStagingRow pool minRetries rowid fetch probe now db).resetIssued = none ∧
      (checkStagingRow pool minRetries rowid fetch probe now db).stageFailPushed
          = none ∧
      (checkStagingRow pool minRetries rowid fetch probe now db).stagingFailCounted
          = false ∧
      (checkStagingRow pool minRetries rowid fetch probe now db).db =
        db.map (fun r =>
          if r.id == rowid then { r with retries := r.retries + 1 } else r) ∧
      (checkStagingRow pool minRetries rowid fetch probe now db).powerOnIssued =
        (if (r0.retries + 1) % 150 == 0 then some r0.vmid else none)) := by
  have hpred : (r0.id == rowid) = true :=
    @List.find?_some VMRow (fun r => r.id == rowid) r0 db hfind
  have hfr0 : (fun r => if r.id == rowid then { r with retries := r.retries + 1 } else r) r0
      = { r0 with retries := r0.retries + 1 } := by simp [hpred]
  have hfind1 : ((db.map (fun r =>
      if r.id == rowid then { r with retries := r.retries + 1 } else r)).find?
        (fun r => r.id == rowid)) = some { r0 with retries := r0.retries + 1 } := by
    have hstep := find?_map_id_pred rowid
      (fun r => if r.id == rowid then { r with retries := r.retries + 1 } else r)
      (fun r => by by_cases h : (r.id == rowid) = true <;> simp [h]) db r0 hfind
    rw [hfr0] at hstep
    exact hstep
  have hfirst : r0 ∈ db := List.mem_of_find?_eq_some hfind
  have hmem1 : ({ r0 with retries := r0.retries + 1 } : VMRow) ∈
      db.map (fun r => if r.id == rowid then { r with retries := r.retries + 1 } else r) :=
    List.mem_map.mpr ⟨r0, hfirst, hfr0⟩
  have hhostb : (v.host == "") = false := by
    rw [Bool.eq_false_iff]
    simpa using hhost
  have hres : checkStagingRow pool minRetries rowid fetch probe now db =
      (if 240 ≤ r0.retries + 1 then
        { db := (resetVM pool r0.vmid none now
            (db.map (fun r =>
              if r.id == rowid then { r with retries := r.retries + 1 } else r))).1,
          stagingFailCounted := true,
          stageFailPushed := some r0.vmid,
          resetIssued := some r0.vmid,
          terminated := (resetVM pool r0.vmid none now
            (db.map (fun r =>
              if r.id == rowid then { r with retries := r.retries + 1 } else r))).2 }
      else
        { db := db.map (fun r =>
            if r.id == rowid then { r with retries := r.retries + 1 } else r),
          powerOnIssued :=
            if (r0.retries + 1) % 150 == 0 then some r0.vmid else none }) := by
    unfold checkStagingRow
    dsimp only
    rw [hfind1]
    dsimp only
    rw [if_neg (Nat.not_lt.mpr hmin), hdata]
    simp only [Option.isNone_some, Bool.false_and, Bool.false_eq_true, if_false,
      hhostb, hprobe]
  constructor
  · intro h240
    rw [hres, if_pos h240]
    refine ⟨rfl, rfl, rfl, ?_⟩
    intro r hr hrp hrv
    dsimp only at hr
    rw [resetVM_none_result pool r0.vmid now _
      ⟨{ r0 with retries := r0.retries + 1 }, hmem1, hpool, rfl⟩] at hr
    dsimp only at hr
    obtain ⟨r2, hr2mem, hr2eq⟩ := List.mem_map.mp hr
    by_cases hm : (r2.pool == pool && r2.vmid == r0.vmid) = true
    · rw [hm] at hr2eq
      simp only [if_true] at hr2eq
      rw [← hr2eq]
      exact ⟨rfl, rfl, rfl, rfl⟩
    · rw [Bool.eq_false_iff.mpr hm] at hr2eq
      simp only [Bool.false_eq_true, if_false] at hr2eq
      rw [← hr2eq] at hrp hrv
      exact absurd (by rw [Bool.and_eq_true, beq_iff_eq, beq_iff_eq]; exact ⟨hrp, hrv⟩) hm
  · intro hlt
    rw [hres, if_neg (by omega)]
    exact ⟨rfl, rfl, rfl, rfl, rfl⟩

/-- Concrete descriptor for the C8 witness. -/
def c8VM : VM :=
  { id := "vx", pass := "pw", host := "h", private_ip := "ip", state := "running",
    tags := [], creation_date := "d", provider := "Hetzner", originalName := none,
    large := false, region := "US" }

/-- Concrete staging row (239 prior retries) for the C8 witness. -/
def c8Row : VMRow :=
  { id := 5, pool := "P", vmid := "vx", state := "staging", creationTime := 0,
    retries := 239, data := some c8VM }

def c8Db : List VMRow := [c8Row]

theorem checkStagingRow_giveup_witness :
    (c8Db.find? (fun r => r.id == 5) = some c8Row) ∧
    (c8Row.pool = "P") ∧ (c8Row.data = some c8VM) ∧ (c8VM.host ≠ "") ∧
    (30 ≤ c8Row.retries + 1) ∧ ((fun _ : String => false) c8VM.host = false) ∧
    ((240 ≤ c8Row.retries + 1 →
      (checkStagingRow "P" 30 5 GetVMOutcome.errOther (fun _ => false) 11 c8Db).stagingFailCounted
          = true ∧
      (checkStagingRow "P" 30 5 GetVMOutcome.errOther (fun _ => false) 11 c8Db).stageFailPushed
          = some c8Row.vmid ∧
      (checkStagingRow "P" 30 5 GetVMOutcome.errOther (fun _ => false) 11 c8Db).resetIssued
          = some c8Row.vmid ∧
      ∀ r ∈ (checkStagingRow "P" 30 5 GetVMOutcome.errOther (fun _ => false) 11 c8Db).db,
        r.pool = "P" → r.vmid = c8Row.vmid →
          r.state = "staging" ∧ r.retries = 0 ∧ r.roomId = none ∧ r.uid = none) ∧
     (c8Row.retries + 1 < 240 →
      (checkStagingRow "P" 30 5 GetVMOutcome.errOther (fun _ => false) 11 c8Db).resetIssued
          = none ∧
      (checkStagingRow "P" 30 5 GetVMOutcome.errOther (fun _ => false) 11 c8Db).stageFailPushed
          = none ∧
      (checkStagingRow "P" 30 5 GetVMOutcome.errOther (fun _ => false) 11 c8Db).stagingFailCounted
          = false ∧
      (checkStagingRow "P" 30 5 GetVMOutcome.errOther (fun _ => false) 11 c8Db).db =
        c8Db.map (fun r =>
          if r.id == 5 then { r with retries := r.retries + 1 } else r) ∧
      (checkStagingRow "P" 30 5 GetVMOutcome.errOther (fun _ => false) 11 c8Db).powerOnIssued =
        (if (c8Row.retries + 1) % 150 == 0 then some c8Row.vmid else none))) :=
  ⟨by decide, rfl, rfl, by decide, by decide, rfl,
    checkStagingRow_giveup "P" 30 5 GetVMOutcome.errOther (fun _ => false) 11
      c8Db c8Row c8VM (by decide) rfl rfl (by decide) (by decide) rfl⟩
